import Mathlib

/-!
Verification of the identifier-derivation core of onionbalance
(`onionbalance/util.py`).

Bytes are modelled as `Nat` values below 256 and byte strings as `List Nat`;
ASCII strings are byte lists of their code points.  Fallible Python code
(exceptions: `binascii.Error`, `struct.error`, `AssertionError`, `ValueError`)
is modelled with `Option` / explicit result types.  Python's arbitrary
precision integers are `Nat` / `Int`.
-/

set_option maxRecDepth 100000

/-- Big-endian encoding of `n` into exactly `k` bytes, keeping only the low
`k` bytes (the behaviour of `struct.pack`-style encoders once the range check
has been done separately). -/
def beBytes : Nat → Nat → List Nat
  | 0, _ => []
  | k + 1, n => beBytes k (n / 256) ++ [n % 256]

theorem beBytes_length (k n : Nat) : (beBytes k n).length = k := by
  induction k generalizing n with
  | zero => rfl
  | succ k ih => simp [beBytes, ih]

theorem beBytes_lt (k n : Nat) : ∀ b ∈ beBytes k n, b < 256 := by
  induction k generalizing n with
  | zero => simp [beBytes]
  | succ k ih =>
    intro b hb
    simp only [beBytes, List.mem_append, List.mem_singleton] at hb
    rcases hb with h | h
    · exact ih _ _ h
    · omega

/-- ASCII lower-case of a single byte (`bytes.lower`). -/
def toLowerByte (c : Nat) : Nat := if 65 ≤ c ∧ c ≤ 90 then c + 32 else c

/-- ASCII upper-case of a single byte (`bytes.upper`), used by
`base64.b32decode` when `casefold` is set. -/
def toUpperByte (c : Nat) : Nat := if 97 ≤ c ∧ c ≤ 122 then c - 32 else c

/-- Character of the RFC 4648 base32 alphabet `A..Z2..7` for a 5-bit value. -/
def b32char (v : Nat) : Nat := if v < 26 then 65 + v else 24 + v

/-- Reverse lookup into the RFC 4648 base32 alphabet, `none` for a byte that
is not an upper-case base32 digit (CPython's `b32rev` table lookup). -/
def b32rev (c : Nat) : Option Nat :=
  if 65 ≤ c ∧ c ≤ 90 then some (c - 65)
  else if 50 ≤ c ∧ c ≤ 55 then some (c - 24)
  else none

/-- One 40-bit quantum (5 bytes) encoded as 8 base32 characters, as produced
by `base64.b32encode` for one input block. -/
def encBlock (b0 b1 b2 b3 b4 : Nat) : List Nat :=
  let n := b0 * 4294967296 + b1 * 16777216 + b2 * 65536 + b3 * 256 + b4
  [b32char (n / 34359738368 % 32), b32char (n / 1073741824 % 32),
   b32char (n / 33554432 % 32), b32char (n / 1048576 % 32),
   b32char (n / 32768 % 32), b32char (n / 1024 % 32),
   b32char (n / 32 % 32), b32char (n % 32)]

/-- Base32-encode a byte list whose length was already padded to a multiple
of five, five input bytes to eight characters. -/
def b32encodeRaw : List Nat → List Nat
  | b0 :: b1 :: b2 :: b3 :: b4 :: rest => encBlock b0 b1 b2 b3 b4 ++ b32encodeRaw rest
  | _ => []

/-- Number of trailing `=` characters `base64.b32encode` emits for a given
input-length remainder mod 5. -/
def padEqCount : Nat → Nat
  | 1 => 6
  | 2 => 4
  | 3 => 3
  | 4 => 1
  | _ => 0

/-- `base64.b32encode`: zero-pad the input to a multiple of five bytes,
encode, then overwrite the tail with `=` padding characters. -/
def b32encode (bs : List Nat) : List Nat :=
  let leftover := bs.length % 5
  let padded := bs ++ List.replicate ((5 - leftover) % 5) 0
  let encoded := b32encodeRaw padded
  encoded.take (encoded.length - padEqCount leftover) ++
    List.replicate (padEqCount leftover) 61

/-- Accumulate base32 digit values over a quantum of characters
(CPython's `acc = (acc << 5) + b32rev[c]` loop); `none` on a byte outside the
alphabet. -/
def decCharsAux (acc : Nat) : List Nat → Option Nat
  | [] => some acc
  | c :: cs => (b32rev c).bind fun v => decCharsAux (acc * 32 + v) cs

/-- Number of decoded bytes contributed by a final quantum that carries
`padchars` padding characters (`(43 - 5 * padchars) // 8`). -/
def leftoverBytes (padchars : Nat) : Nat := (43 - 5 * padchars) / 8

/-- Decode the `=`-stripped character stream in quanta of eight characters;
only the final quantum may be shorter, by `padchars` characters. -/
def decodeGroups (padchars : Nat) : List Nat → Option (List Nat)
  | c0 :: c1 :: c2 :: c3 :: c4 :: c5 :: c6 :: c7 :: rest =>
    match decCharsAux 0 [c0, c1, c2, c3, c4, c5, c6, c7], decodeGroups padchars rest with
    | some acc, some tail => some (beBytes 5 acc ++ tail)
    | _, _ => none
  | [] => if padchars = 0 then some [] else none
  | cs =>
    if cs.length + padchars = 8 then
      match decCharsAux 0 cs with
      | some acc => some ((beBytes 5 (acc * 2 ^ (5 * padchars))).take (leftoverBytes padchars))
      | none => none
    else none

/-- Drop trailing `=` characters (`bytes.rstrip(b'=')`). -/
def rstripPad (l : List Nat) : List Nat :=
  (l.reverse.dropWhile (fun c => c == 61)).reverse

/-- `base64.b32decode(s, casefold=True)`: the length must be a multiple of
eight, characters are upper-cased, trailing `=` is stripped and must amount
to 0, 1, 3, 4 or 6 characters, and the remaining quanta are decoded;
`none` models `binascii.Error`. -/
def b32decode (s : List Nat) : Option (List Nat) :=
  if s.length % 8 ≠ 0 then none
  else
    let su := s.map toUpperByte
    let stripped := rstripPad su
    let padchars := su.length - stripped.length
    if padchars = 0 then decodeGroups 0 stripped
    else if padchars = 1 ∨ padchars = 3 ∨ padchars = 4 ∨ padchars = 6 then
      decodeGroups padchars stripped
    else none

/-- `util.add_pkcs1_padding`: `0x00 0x01`, then `0xFF` filler, then `0x00`,
then the message; the `assert len(padded_message) == 128` is modelled by
returning `none` when the length check fails.  (Python's `b'\xFF' * n` is
empty for negative `n`, exactly like truncated `Nat` subtraction here.) -/
def add_pkcs1_padding (message : List Nat) : Option (List Nat) :=
  let padded_message :=
    [0, 1] ++ List.replicate (125 - message.length) 255 ++ [0] ++ message
  if padded_message.length = 128 then some padded_message else none

/-- `util.get_time_period`.  The Python 3 expression
`int((int(time) + permanent_id_byte * 86400 / 256) / 86400)` evaluates
`permanent_id_byte * 86400 / 256` to the half-integer
`permanent_id_byte * 337.5`; for every timestamp below 2^52 the float
arithmetic is exact and the truncation computes the floor of the exact
combined value, i.e. `(2 * t + 675 * byte) / 172800` in integer arithmetic.
`none` models the `struct.error` raised on an empty `permanent_id`. -/
def get_time_period (t : Nat) (permanent_id : List Nat) : Option Nat :=
  (permanent_id.head?).map fun permanent_id_byte =>
    (2 * t + 675 * permanent_id_byte) / 172800

/-- `util.get_seconds_valid`: `86400 - int((int(time) + byte * 86400 / 256) % 86400)`;
the inner value is the half-integer `(2 * t + 675 * byte) / 2`, whose
remainder mod 86400 is `((2 * t + 675 * byte) % 172800) / 2` once `int`
truncates the fractional half. -/
def get_seconds_valid (t : Nat) (permanent_id : List Nat) : Option Nat :=
  (permanent_id.head?).map fun permanent_id_byte =>
    86400 - ((2 * t + 675 * permanent_id_byte) % 172800) / 2

/-- Hex-digit count of `r` (at least 1), structural-fuel version of repeated
division by 16. -/
def hexLenAux : Nat → Nat → Nat
  | 0, _ => 1
  | fuel + 1, r => if r < 16 then 1 else hexLenAux fuel (r / 16) + 1

/-- Number of characters produced by `'{0:02X}'.format(r)`: at least two hex
digits. -/
def hexFmtLen (r : Nat) : Nat := max 2 (hexLenAux r r)

/-- `binascii.unhexlify('{0:02X}'.format(replica))`: fails (`none`) when the
formatted hex string has odd length, otherwise yields the big-endian bytes. -/
def replicaBytes (replica : Nat) : Option (List Nat) :=
  let l := hexFmtLen replica
  if l % 2 = 1 then none else some (beBytes (l / 2) replica)

example : replicaBytes 0 = some [0] := by decide
example : replicaBytes 255 = some [255] := by decide
example : replicaBytes 300 = none := by decide
example : replicaBytes 4660 = some [18, 52] := by decide

example : b32decode [65, 65, 65, 65, 65, 65, 65, 65] = some [0, 0, 0, 0, 0] := by decide
example : b32encode [0, 0, 0, 0, 0] = [65, 65, 65, 65, 65, 65, 65, 65] := by decide
example : b32decode [97, 97, 97, 97, 97, 97, 97, 98] = some [0, 0, 0, 0, 1] := by decide
example : b32decode [65, 65, 65, 65, 65, 65, 65] = none := by decide
example : b32decode [65, 66, 49, 65, 65, 65, 65, 65] = none := by decide
example : b32decode [77, 89, 61, 61, 61, 61, 61, 61] = some [102] := by decide
example : get_time_period 432000 (List.replicate 10 0) = some 5 := by decide
example : get_seconds_valid 432000 (List.replicate 10 0) = some 86400 := by decide
example : get_seconds_valid 0 [1, 0, 0] = some 86063 := by decide

example : b32decode [65, 61, 61, 61, 61, 61, 61, 61] = none := by decide
example : b32decode [61, 61, 61, 61, 61, 61, 61, 61] = none := by decide
example : b32decode [77, 90, 88, 87, 54, 61, 61, 61] = some [102, 111, 111] := by decide
example : b32encode [102] = [77, 89, 61, 61, 61, 61, 61, 61] := by decide
example : b32encode [102, 111, 111] = [77, 90, 88, 87, 54, 61, 61, 61] := by decide

/-- Rotate a 32-bit word left by `n` bits. -/
def rotl32 (n x : Nat) : Nat := x % 2 ^ (32 - n) * 2 ^ n + x / 2 ^ (32 - n)

/-- SHA-1 round function for round `i`. -/
def sha1F (i b c d : Nat) : Nat :=
  if i < 20 then b &&& c ||| (b ^^^ 4294967295) &&& d
  else if i < 40 then b ^^^ c ^^^ d
  else if i < 60 then b &&& c ||| b &&& d ||| c &&& d
  else b ^^^ c ^^^ d

/-- SHA-1 round constant for round `i`. -/
def sha1K (i : Nat) : Nat :=
  if i < 20 then 1518500249
  else if i < 40 then 1859775393
  else if i < 60 then 2400959708
  else 3395469782

/-- Big-endian 32-bit word number `i` of a byte list. -/
def word32At (l : List Nat) (i : Nat) : Nat :=
  l.getD (4 * i) 0 * 16777216 + l.getD (4 * i + 1) 0 * 65536 +
    l.getD (4 * i + 2) 0 * 256 + l.getD (4 * i + 3) 0

/-- Extend the 16 message words of a SHA-1 chunk by `k` further schedule
words. -/
def sha1Extend : Nat → List Nat → List Nat
  | 0, w => w
  | k + 1, w =>
    let i := w.length
    sha1Extend k (w ++ [rotl32 1 (w.getD (i - 3) 0 ^^^ w.getD (i - 8) 0 ^^^
      w.getD (i - 14) 0 ^^^ w.getD (i - 16) 0)])

/-- The five 32-bit chaining words of a SHA-1 computation. -/
structure Sha1State where
  a0 : Nat
  b0 : Nat
  c0 : Nat
  d0 : Nat
  e0 : Nat

/-- SHA-1 compression of one 64-byte chunk into the chaining state. -/
def sha1Compress (st : Sha1State) (chunk : List Nat) : Sha1State :=
  let w := sha1Extend 64 ((List.range 16).map (word32At chunk))
  let r := (List.range 80).foldl
    (fun (abcde : Nat × Nat × Nat × Nat × Nat) i =>
      let (a, b, c, d, e) := abcde
      ((rotl32 5 a + sha1F i b c d + e + sha1K i + w.getD i 0) % 4294967296,
        a, rotl32 30 b, c, d))
    (st.a0, st.b0, st.c0, st.d0, st.e0)
  { a0 := (st.a0 + r.1) % 4294967296
    b0 := (st.b0 + r.2.1) % 4294967296
    c0 := (st.c0 + r.2.2.1) % 4294967296
    d0 := (st.d0 + r.2.2.2.1) % 4294967296
    e0 := (st.e0 + r.2.2.2.2) % 4294967296 }

/-- Fold SHA-1 compression over `k` 64-byte chunks. -/
def sha1Blocks : Nat → Sha1State → List Nat → Sha1State
  | 0, st, _ => st
  | k + 1, st, l => sha1Blocks k (sha1Compress st (l.take 64)) (l.drop 64)

/-- Merkle-Damgard padding of SHA-1: a 0x80 byte, zero filler to 56 mod 64,
then the bit length as 8 big-endian bytes. -/
def sha1Pad (msg : List Nat) : List Nat :=
  msg ++ [128] ++ List.replicate ((119 - msg.length % 64) % 64) 0 ++
    beBytes 8 (8 * msg.length)

/-- `hashlib.sha1(msg).digest()`: the 20-byte SHA-1 digest. -/
def sha1 (msg : List Nat) : List Nat :=
  let padded := sha1Pad msg
  let st := sha1Blocks (padded.length / 64)
    { a0 := 1732584193, b0 := 4023233417, c0 := 2562383102,
      d0 := 271733878, e0 := 3285377520 } padded
  beBytes 4 st.a0 ++ beBytes 4 st.b0 ++ beBytes 4 st.c0 ++
    beBytes 4 st.d0 ++ beBytes 4 st.e0

example : sha1 [97, 98, 99] =
    [0xa9, 0x99, 0x3e, 0x36, 0x47, 0x06, 0x81, 0x6a, 0xba, 0x3e,
     0x25, 0x71, 0x78, 0x50, 0xc2, 0x6c, 0x9c, 0xd0, 0xd8, 0x9d] := by decide
example : sha1 [0, 0, 0, 1, 0] =
    [0x2e, 0xd3, 0xce, 0x01, 0x29, 0xa6, 0x54, 0x72, 0xa5, 0x0d,
     0x8e, 0xd6, 0xf9, 0xe0, 0x8b, 0x4d, 0x99, 0x37, 0x99, 0xfc] := by decide

example : sha1 (List.range 100) =
    [30, 102, 52, 191, 174, 188, 3, 72, 41, 129, 5, 146, 61, 15, 38,
     228, 122, 163, 63, 245] := by decide

/-- Rotate a 64-bit word left by `n` bits. -/
def rotl64 (n x : Nat) : Nat := x % 2 ^ (64 - n) * 2 ^ n + x / 2 ^ (64 - n)

/-- The 24 Keccak-f[1600] round constants. -/
def keccakRC : List Nat :=
  [1, 32898, 9223372036854808714, 9223372039002292224, 32907, 2147483649,
   9223372039002292353, 9223372036854808585, 138, 136, 2147516425,
   2147483658, 2147516555, 9223372036854775947, 9223372036854808713,
   9223372036854808579, 9223372036854808578, 9223372036854775936, 32778,
   9223372039002259466, 9223372039002292353, 9223372036854808704,
   2147483649, 9223372039002292232]

/-- Keccak rotation-offset table, row `y`, column `x`. -/
def keccakRhoRows : List (List Nat) :=
  [[0, 1, 62, 28, 27], [36, 44, 6, 55, 20], [3, 10, 43, 25, 39],
   [41, 45, 15, 21, 8], [18, 2, 61, 56, 14]]

/-- Keccak rotation offset of lane `(x, y)`. -/
def keccakRho (x y : Nat) : Nat := (keccakRhoRows.getD y []).getD x 0

/-- Lane `(x, y)` of a Keccak state held as 25 64-bit values. -/
def laneAt (st : List Nat) (x y : Nat) : Nat := st.getD (x + 5 * y) 0

/-- Keccak theta step. -/
def keccakTheta (st : List Nat) : List Nat :=
  let c := fun x =>
    laneAt st x 0 ^^^ laneAt st x 1 ^^^ laneAt st x 2 ^^^ laneAt st x 3 ^^^ laneAt st x 4
  let d := fun x => c ((x + 4) % 5) ^^^ rotl64 1 (c ((x + 1) % 5))
  (List.range 25).map fun i => st.getD i 0 ^^^ d (i % 5)

/-- Keccak rho and pi steps: lane `(x, y)` is rotated and moved to
`(y, (2 x + 3 y) % 5)`. -/
def keccakRhoPi (st : List Nat) : List Nat :=
  (List.range 25).map fun j =>
    let x := (j % 5 + 3 * (j / 5)) % 5
    let y := j % 5
    rotl64 (keccakRho x y) (laneAt st x y)

/-- Keccak chi step. -/
def keccakChi (st : List Nat) : List Nat :=
  (List.range 25).map fun j =>
    let x := j % 5
    let y := j / 5
    laneAt st x y ^^^
      (laneAt st ((x + 1) % 5) y ^^^ 18446744073709551615) &&&
        laneAt st ((x + 2) % 5) y

/-- One round of Keccak-f[1600] with round constant `rc`. -/
def keccakRound (st : List Nat) (rc : Nat) : List Nat :=
  let st := keccakChi (keccakRhoPi (keccakTheta st))
  st.set 0 (st.getD 0 0 ^^^ rc)

/-- The Keccak-f[1600] permutation. -/
def keccakF (st : List Nat) : List Nat := keccakRC.foldl keccakRound st

/-- Interpret a 136-byte rate block as 17 little-endian 64-bit lanes. -/
def bytesToLanes (block : List Nat) : List Nat :=
  (List.range 17).map fun i =>
    (List.range 8).foldl (fun acc k => acc + block.getD (8 * i + k) 0 * 2 ^ (8 * k)) 0

/-- XOR a rate block into the front lanes of the state. -/
def xorLanes (st block : List Nat) : List Nat :=
  (List.range 25).map fun i => st.getD i 0 ^^^ block.getD i 0

/-- Absorb `k` 136-byte blocks into the sponge state. -/
def keccakAbsorb : Nat → List Nat → List Nat → List Nat
  | 0, st, _ => st
  | k + 1, st, l =>
    keccakAbsorb k (keccakF (xorLanes st (bytesToLanes (l.take 136)))) (l.drop 136)

/-- SHA-3 domain padding `0x06 .. 0x80` up to the 136-byte rate. -/
def sha3Pad (msg : List Nat) : List Nat :=
  let q := 136 - msg.length % 136
  if q = 1 then msg ++ [134]
  else msg ++ [6] ++ List.replicate (q - 2) 0 ++ [128]

/-- `hashlib.sha3_256(msg).digest()`: the 32-byte SHA3-256 digest. -/
def sha3_256 (msg : List Nat) : List Nat :=
  let padded := sha3Pad msg
  let st := keccakAbsorb (padded.length / 136) (List.replicate 25 0) padded
  (List.range 32).map fun j => st.getD (j / 8) 0 / 2 ^ (8 * (j % 8)) % 256

example : sha3_256 [] =
    [167, 255, 198, 248, 191, 30, 215, 102, 81, 193, 71, 86, 160, 97, 214,
     98, 245, 128, 255, 77, 228, 59, 73, 250, 130, 216, 10, 75, 128, 248,
     67, 74] := by decide
example : sha3_256 [97, 98, 99] =
    [58, 152, 93, 167, 79, 226, 37, 178, 4, 92, 23, 45, 107, 211, 144, 189,
     133, 95, 8, 110, 62, 157, 82, 91, 70, 191, 226, 69, 17, 67, 21, 50] := by decide
example : sha3_256 (List.range 200) =
    [95, 114, 143, 99, 191, 94, 228, 140, 119, 244, 83, 192, 73, 3, 152,
     250, 100, 91, 141, 76, 78, 86, 190, 154, 65, 207, 236, 52, 77, 108,
     168, 153] := by decide

/-- Minimal big-endian byte representation of `n` (empty for 0),
structural-fuel version of repeated division by 256. -/
def minBEAux : Nat → Nat → List Nat
  | 0, _ => []
  | fuel + 1, n => if n = 0 then [] else minBEAux fuel (n / 256) ++ [n % 256]

/-- Minimal big-endian bytes of `n`. -/
def minBE (n : Nat) : List Nat := minBEAux n n

/-- DER content octets of a non-negative INTEGER: minimal big-endian bytes,
with a leading zero byte when the high bit is set (and `[0]` for zero). -/
def derIntContent (n : Nat) : List Nat :=
  let bs := if n = 0 then [0] else minBE n
  if 128 ≤ bs.headD 0 then 0 :: bs else bs

/-- DER length octets: short form below 128, long form otherwise. -/
def derLen (l : Nat) : List Nat :=
  if l < 128 then [l] else
    let lb := minBE l
    (128 + lb.length) :: lb

/-- DER encoding of one INTEGER (tag 0x02). -/
def derInt (n : Nat) : List Nat :=
  let content := derIntContent n
  2 :: derLen content.length ++ content

/-- `util.get_asn1_sequence`: the DER SEQUENCE (tag 0x30) of the RSA modulus
and public exponent. -/
def get_asn1_sequence (n e : Nat) : List Nat :=
  let content := derInt n ++ derInt e
  48 :: derLen content.length ++ content

/-- `util.calc_key_digest`: SHA-1 of the DER-encoded key. -/
def calc_key_digest (n e : Nat) : List Nat := sha1 (get_asn1_sequence n e)

/-- `util.calc_permanent_id`: the first 10 bytes of the key digest. -/
def calc_permanent_id (n e : Nat) : List Nat := (calc_key_digest n e).take 10

/-- `util.base32_encode_str`: lowercase base32 of a byte string. -/
def base32_encode_str (byte_str : List Nat) : List Nat :=
  (b32encode byte_str).map toLowerByte

/-- The ASCII bytes of the v3 checksum domain string `.onion checksum`. -/
def onionChecksumBytes : List Nat :=
  [46, 111, 110, 105, 111, 110, 32, 99, 104, 101, 99, 107, 115, 117, 109]

/-- Key material held by a caller of `calc_onion_address`: either an Ed25519
key (identified by its 32 raw public-key bytes) or an RSA key (modulus and
exponent). -/
inductive KeyMaterial where
  | ed25519 (pub_key : List Nat)
  | rsa (n e : Nat)

/-- `util.calc_onion_address`: v3 address (pubkey, 2-byte SHA3-256 checksum,
version byte 3, base32, lowercase) for Ed25519 keys, v2 address (lowercase
base32 of the permanent id) for RSA keys. -/
def calc_onion_address : KeyMaterial → List Nat
  | .ed25519 pub_key =>
    let checksum := (sha3_256 (onionChecksumBytes ++ pub_key ++ [3])).take 2
    base32_encode_str (pub_key ++ checksum ++ [3])
  | .rsa n e => (b32encode (calc_permanent_id n e)).map toLowerByte

/-- `util.calc_descriptor_id`: SHA-1 of permanent id and secret id part. -/
def calc_descriptor_id (permanent_id secret_id_part : List Nat) : List Nat :=
  sha1 (permanent_id ++ secret_id_part)

/-- `util.calc_secret_id_part`: SHA-1 over the time period packed as four
big-endian bytes (`struct.pack('>I', ...)`, a `struct.error` outside
`[0, 2^32)` modelled as `none`), the cookie bytes when the cookie is truthy
(`None` and `b''` both contribute nothing), and the formatted replica
byte(s). -/
def calc_secret_id_part (time_period : Int) (descriptor_cookie : Option (List Nat))
    (replica : Nat) : Option (List Nat) :=
  if 0 ≤ time_period ∧ time_period.toNat < 4294967296 then
    (replicaBytes replica).map fun rb =>
      let cookieBytes := match descriptor_cookie with
        | some c => if c.length = 0 then [] else c
        | none => []
      sha1 (beBytes 4 time_period.toNat ++ cookieBytes ++ rb)
  else none

/-- `util.calc_descriptor_id_b32`: base32-decode the address, compute the
time period plus deviation, the secret id part and the descriptor id, and
return it base32-encoded in lower case. -/
def calc_descriptor_id_b32 (onion_address : List Nat) (t : Nat) (replica : Nat)
    (deviation : Int) (descriptor_cookie : Option (List Nat)) : Option (List Nat) :=
  match b32decode onion_address with
  | none => none
  | some permanent_id =>
    match get_time_period t permanent_id with
    | none => none
    | some tp =>
      let time_period : Int := (tp : Int) + deviation
      match calc_secret_id_part time_period descriptor_cookie replica with
      | none => none
      | some secret_id_part =>
        let descriptor_id := calc_descriptor_id permanent_id secret_id_part
        some ((b32encode descriptor_id).map toLowerByte)

/-- The result of importing an RSA private-key container: size as reported
by PyCrypto's `RSA.size()` and whether the key has a private part. -/
structure RSAKey where
  hasPrivate : Bool
  size : Nat
deriving DecidableEq

/-- Outcome of `util.key_decrypt_prompt`: a returned Ed25519 or RSA key, the
`ValueError` for a wrong key type or size, or the `ValueError` raised when
the import attempts are exhausted. -/
inductive KeyResult where
  | ed25519 (secret : List Nat)
  | rsa (k : RSAKey)
  | keyFormatError
  | decryptionError
deriving DecidableEq

/-- The 29 ASCII bytes of the hidden-service v3 secret-container tag
`== ed25519v1-secret: type0 ==`. -/
def hsv3Tag : List Nat :=
  [61, 61, 32, 101, 100, 50, 53, 53, 49, 57, 118, 49, 45, 115, 101, 99,
   114, 101, 116, 58, 32, 116, 121, 112, 101, 48, 32, 61, 61]

/-- The retry loop of `key_decrypt_prompt`: attempt `i` of the
injected import step (passphrase prompting folded into the attempt index);
a `none` import models the `ValueError` on decode failure and moves to the
next attempt; an imported key is returned only when it is private with size
1023 or 1024, else the loop raises. -/
def decryptLoop (importKey : Nat → Option RSAKey) : Nat → Nat → KeyResult
  | 0, _ => .decryptionError
  | n + 1, i =>
    match importKey i with
    | none => decryptLoop importKey n (i + 1)
    | some k =>
      if k.hasPrivate ∧ (k.size = 1023 ∨ k.size = 1024) then .rsa k
      else .keyFormatError

/-- `util.key_decrypt_prompt` with the file contents and the
passphrase/import step supplied as inputs: an hsv3-tagged container returns
the raw scalar at bytes 32..64 directly; otherwise the RSA import loop runs
for `retries` attempts. -/
def key_decrypt_prompt (pem_key : List Nat) (importKey : Nat → Option RSAKey)
    (retries : Nat) : KeyResult :=
  if hsv3Tag.isPrefixOf pem_key then .ed25519 ((pem_key.drop 32).take 32)
  else decryptLoop importKey retries 0

example : get_asn1_sequence 12345678901234567890 65537 =
    [48, 16, 2, 9, 0, 171, 84, 169, 140, 235, 31, 10, 210, 2, 3, 1, 0, 1] := by decide
example : calc_permanent_id 12345678901234567890 65537 =
    [214, 75, 147, 213, 114, 5, 144, 216, 189, 13] := by decide
example : calc_descriptor_id_b32 [65, 65, 65, 65, 65, 65, 65, 65] 0 0 0 none =
    some [97, 111, 54, 97, 102, 54, 52, 120, 100, 52, 121, 103, 108, 115, 54,
      107, 54, 53, 103, 107, 103, 108, 101, 111, 110, 122, 115, 113, 102, 53,
      107, 104] := by decide
example : calc_onion_address (.ed25519 (List.replicate 32 0)) =
    [97, 97, 97, 97, 97, 97, 97, 97, 97, 97, 97, 97, 97, 97, 97, 97, 97, 97,
     97, 97, 97, 97, 97, 97, 97, 97, 97, 97, 97, 97, 97, 97, 97, 97, 97, 97,
     97, 97, 97, 97, 97, 97, 97, 97, 97, 97, 97, 97, 97, 97, 97, 109, 50,
     100, 113, 100] := by decide

/-- Exact (rational) remainder `a mod b`, matching Python's float `%` for a
positive modulus: `a - b * floor(a / b)`. -/
def ratMod (a b : ℚ) : ℚ := a - b * (Int.floor (a / b) : ℚ)

/-- The time period as the specification words it: the floor of the exact
rational `(timestamp + phase * 86400 / 256) / 86400`. -/
def specTimePeriod (t phase : Nat) : Int :=
  Int.floor (((t : ℚ) + (phase : ℚ) * 86400 / 256) / 86400)

/-- The seconds-valid value as the specification words it:
`86400 - ((timestamp + phase * 86400 / 256) mod 86400)` with the remainder
taken on the exact rational combined value. -/
def specSecondsValid (t phase : Nat) : ℚ :=
  86400 - ratMod ((t : ℚ) + (phase : ℚ) * 86400 / 256) 86400

theorem sha1_length (msg : List Nat) : (sha1 msg).length = 20 := by
  simp [sha1, beBytes_length]

theorem sha1_lt (msg : List Nat) : ∀ b ∈ sha1 msg, b < 256 := by
  intro b hb
  simp only [sha1, List.mem_append] at hb
  rcases hb with ((((h | h) | h) | h) | h) <;> exact beBytes_lt _ _ _ h

theorem replicaBytes_of_lt (replica : Nat) (h : replica < 256) :
    replicaBytes replica = some [replica] := by
  revert h
  revert replica
  decide

/-- C2: for every timestamp and every permanent id with a first byte, the
computed time period is the floor of the exact rational
`(t + phase * 86400 / 256) / 86400`, the offset term computed first. -/
theorem get_time_period_exact (t : Nat) (p : List Nat) (phase tp : Nat)
    (hb : p.head? = some phase) (h : get_time_period t p = some tp) :
    (tp : Int) = specTimePeriod t phase := by
  simp only [get_time_period, hb, Option.map_some', Option.some.injEq] at h
  subst h
  unfold specTimePeriod
  have h1 : ((t : ℚ) + (phase : ℚ) * 86400 / 256) / 86400
      = ((2 * t + 675 * phase : ℕ) : ℚ) / ((172800 : ℕ) : ℚ) := by
    push_cast
    ring
  rw [h1, Rat.floor_natCast_div_natCast]
  push_cast
  rfl

theorem get_time_period_exact_witness :
    get_time_period 432000 (List.replicate 10 0) = some 5
    ∧ ((5 : Nat) : Int) = specTimePeriod 432000 0 :=
  ⟨by decide,
    get_time_period_exact 432000 (List.replicate 10 0) 0 5 (by decide) (by decide)⟩

theorem ratMod_natCast_div_two (n : Nat) :
    ratMod ((n : ℚ) / 2) 86400 = ((n % 172800 : ℕ) : ℚ) / 2 := by
  unfold ratMod
  have h1 : ((n : ℚ) / 2) / 86400 = ((n : ℕ) : ℚ) / ((172800 : ℕ) : ℚ) := by
    push_cast
    ring
  rw [h1, Rat.floor_natCast_div_natCast, ← Int.ofNat_ediv]
  have h2 := Nat.div_add_mod n 172800
  have h3 : (n : ℚ) = 172800 * ((n / 172800 : ℕ) : ℚ) + ((n % 172800 : ℕ) : ℚ) := by
    exact_mod_cast congrArg (Nat.cast : ℕ → ℚ) h2.symm
  rw [Int.cast_natCast, h3]
  ring

/-- C3 (amended): the seconds-valid value is `86400` minus the FLOOR of the
exact remainder `(t + phase * 86400 / 256) mod 86400` — the code truncates
the fractional half before subtracting — and the rotation identity holds
with that floored remainder. -/
theorem get_seconds_valid_floor_mod (t : Nat) (p : List Nat) (phase s : Nat)
    (hb : p.head? = some phase) (h : get_seconds_valid t p = some s) :
    (s : Int) = 86400 - Int.floor (ratMod ((t : ℚ) + (phase : ℚ) * 86400 / 256) 86400)
    ∧ (s : Int) + Int.floor (ratMod ((t : ℚ) + (phase : ℚ) * 86400 / 256) 86400) = 86400 := by
  simp only [get_seconds_valid, hb, Option.map_some', Option.some.injEq] at h
  subst h
  have h1 : ((t : ℚ) + (phase : ℚ) * 86400 / 256) = ((2 * t + 675 * phase : ℕ) : ℚ) / 2 := by
    push_cast
    ring
  have hfl : Int.floor (ratMod ((t : ℚ) + (phase : ℚ) * 86400 / 256) 86400)
      = (((2 * t + 675 * phase) % 172800 / 2 : ℕ) : ℤ) := by
    rw [h1, ratMod_natCast_div_two]
    have h2 : (((2 * t + 675 * phase) % 172800 : ℕ) : ℚ) / 2
        = (((2 * t + 675 * phase) % 172800 : ℕ) : ℚ) / ((2 : ℕ) : ℚ) := by norm_num
    rw [h2, Rat.floor_natCast_div_natCast, ← Int.ofNat_ediv]
  rw [hfl]
  constructor
  · omega
  · omega

theorem get_seconds_valid_floor_mod_witness :
    get_seconds_valid 432000 (List.replicate 10 0) = some 86400
    ∧ ((86400 : Nat) : Int)
        = 86400 - Int.floor (ratMod ((432000 : ℚ) + (0 : ℚ) * 86400 / 256) 86400) :=
  ⟨by decide,
    (get_seconds_valid_floor_mod 432000 (List.replicate 10 0) 0 86400
      (by decide) (by decide)).1⟩

/-- C3 (counterexample): with timestamp 0 and a permanent id whose first
byte is 1, the code returns 86063, but the claim's exact-remainder formula
gives the non-integer 86062.5, and the claimed rotation identity with the
exact remainder sums to 86400.5. -/
theorem get_seconds_valid_exact_mod_counterexample :
    get_seconds_valid 0 [1, 0, 0, 0, 0, 0, 0, 0, 0, 0] = some 86063
    ∧ ((86063 : ℚ) ≠ specSecondsValid 0 1)
    ∧ (86063 : ℚ) + ratMod ((0 : ℚ) + (1 : ℚ) * 86400 / 256) 86400 ≠ 86400 := by
  refine ⟨by decide, ?_, ?_⟩
  · unfold specSecondsValid ratMod
    push_cast
    have hz : Int.floor (((0 : ℚ) + (1 : ℚ) * 86400 / 256) / 86400) = 0 :=
      Int.floor_eq_zero_iff.2 (by constructor <;> norm_num)
    rw [hz]
    norm_num
  · unfold ratMod
    have hz : Int.floor (((0 : ℚ) + (1 : ℚ) * 86400 / 256) / 86400) = 0 :=
      Int.floor_eq_zero_iff.2 (by constructor <;> norm_num)
    rw [hz]
    norm_num

/-- C8: for a fixed permanent id the time period is non-decreasing in the
timestamp. -/
theorem get_time_period_monotone (p : List Nat) (t1 t2 tp1 tp2 : Nat)
    (ht : t1 ≤ t2) (h1 : get_time_period t1 p = some tp1)
    (h2 : get_time_period t2 p = some tp2) : tp1 ≤ tp2 := by
  cases hp : p.head? with
  | none => simp [get_time_period, hp] at h1
  | some b =>
    simp only [get_time_period, hp, Option.map_some', Option.some.injEq] at h1 h2
    subst h1
    subst h2
    exact Nat.div_le_div_right (by omega)

theorem get_time_period_monotone_witness :
    (0 : Nat) ≤ 86400
    ∧ get_time_period 0 (List.replicate 10 0) = some 0
    ∧ get_time_period 86400 (List.replicate 10 0) = some 1
    ∧ (0 : Nat) ≤ 1 :=
  ⟨by decide, by decide, by decide,
    get_time_period_monotone (List.replicate 10 0) 0 86400 0 1
      (by decide) (by decide) (by decide)⟩

/-- C10: a present but empty descriptor cookie yields the same secret id
part as an absent cookie (`if descriptor_cookie:` treats `b''` as falsy, and
an empty byte string contributes nothing to the hash input either way). -/
theorem calc_secret_id_part_empty_cookie (time_period : Int) (replica : Nat) :
    calc_secret_id_part time_period (some []) replica
      = calc_secret_id_part time_period none replica := by
  unfold calc_secret_id_part
  rfl

theorem calc_secret_id_part_some (time_period : Nat) (cookie : Option (List Nat))
    (replica : Nat) (htp : time_period < 4294967296) (hr : replica < 256) :
    calc_secret_id_part time_period cookie replica
      = some (sha1 (beBytes 4 time_period ++ cookie.getD [] ++ [replica])) := by
  unfold calc_secret_id_part
  rw [if_pos (by constructor <;> simp [htp])]
  rw [replicaBytes_of_lt replica hr]
  simp only [Option.map_some', Option.some.injEq, Int.toNat_natCast]
  cases cookie with
  | none => rfl
  | some c =>
    cases c with
    | nil => rfl
    | cons x xs => rfl

/-- C4: for an in-range time period and replica, the secret id part is the
20-byte SHA-1 digest of the time period as four big-endian bytes, the cookie
bytes verbatim (nothing when absent), and the replica as one byte. -/
theorem calc_secret_id_part_spec (time_period : Nat) (cookie : Option (List Nat))
    (replica : Nat) (htp : time_period < 4294967296) (hr : replica < 256) :
    calc_secret_id_part time_period cookie replica
      = some (sha1 (beBytes 4 time_period ++ cookie.getD [] ++ [replica]))
    ∧ (sha1 (beBytes 4 time_period ++ cookie.getD [] ++ [replica])).length = 20 :=
  ⟨calc_secret_id_part_some time_period cookie replica htp hr, sha1_length _⟩

theorem calc_secret_id_part_spec_witness :
    (1 : Nat) < 4294967296 ∧ (0 : Nat) < 256
    ∧ calc_secret_id_part 1 none 0 = some (sha1 [0, 0, 0, 1, 0])
    ∧ (sha1 [0, 0, 0, 1, 0]).length = 20 := by
  have h := calc_secret_id_part_spec 1 none 0 (by decide) (by decide)
  exact ⟨by decide, by decide, h.1, h.2⟩

/-- C5: padding a message of at most 125 bytes yields exactly the 128-byte
block `00 01`, `FF` filler, `00`, message; longer messages fail, and no
returned block ever has a length other than 128. -/
theorem add_pkcs1_padding_spec (message : List Nat) :
    (message.length ≤ 125 → add_pkcs1_padding message
      = some ([0, 1] ++ List.replicate (125 - message.length) 255 ++ [0] ++ message))
    ∧ (125 < message.length → add_pkcs1_padding message = none)
    ∧ (∀ out, add_pkcs1_padding message = some out → out.length = 128) := by
  unfold add_pkcs1_padding
  have hlen : ([0, 1] ++ List.replicate (125 - message.length) 255 ++ [0]
      ++ message).length = 2 + (125 - message.length) + 1 + message.length := by
    simp
    omega
  refine ⟨fun hle => ?_, fun hgt => ?_, fun out hout => ?_⟩
  · rw [if_pos (by omega)]
  · rw [if_neg (by omega)]
  · by_cases hc : ([0, 1] ++ List.replicate (125 - message.length) 255 ++ [0]
        ++ message).length = 128
    · rw [if_pos hc] at hout
      cases hout
      exact hc
    · rw [if_neg hc] at hout
      cases hout

theorem add_pkcs1_padding_spec_witness :
    ([97, 98, 99] : List Nat).length ≤ 125
    ∧ add_pkcs1_padding [97, 98, 99]
      = some ([0, 1] ++ List.replicate 122 255 ++ [0] ++ [97, 98, 99]) :=
  ⟨by decide, (add_pkcs1_padding_spec [97, 98, 99]).1 (by decide)⟩

theorem decryptLoop_rsa_good (importKey : Nat → Option RSAKey) (n i : Nat) (k : RSAKey)
    (h : decryptLoop importKey n i = .rsa k) :
    k.hasPrivate = true ∧ (k.size = 1023 ∨ k.size = 1024) := by
  induction n generalizing i with
  | zero => simp [decryptLoop] at h
  | succ n ih =>
    rw [decryptLoop] at h
    cases hi : importKey i with
    | none =>
      rw [hi] at h
      exact ih (i + 1) h
    | some k1 =>
      rw [hi] at h
      simp only [] at h
      by_cases hgood : k1.hasPrivate = true ∧ (k1.size = 1023 ∨ k1.size = 1024)
      · rw [if_pos hgood] at h
        cases h
        exact hgood
      · rw [if_neg hgood] at h
        cases h

/-- C9: on the RSA path (container not hsv3-tagged) with the import step
supplied as an input, a key is returned only when the imported key is
private with reported size 1023 or 1024; the first successfully imported key
failing that check raises the key-format error; and three failed import
attempts exhaust the retries and raise the decryption error. -/
theorem key_decrypt_prompt_spec (pem_key : List Nat) (importKey : Nat → Option RSAKey)
    (hpem : hsv3Tag.isPrefixOf pem_key = false) :
    (∀ k, key_decrypt_prompt pem_key importKey 3 = .rsa k →
      k.hasPrivate = true ∧ (k.size = 1023 ∨ k.size = 1024))
    ∧ (∀ j k, j < 3 → (∀ i, i < j → importKey i = none) → importKey j = some k →
        ¬(k.hasPrivate = true ∧ (k.size = 1023 ∨ k.size = 1024)) →
        key_decrypt_prompt pem_key importKey 3 = .keyFormatError)
    ∧ ((∀ i, i < 3 → importKey i = none) →
        key_decrypt_prompt pem_key importKey 3 = .decryptionError) := by
  have hloop : key_decrypt_prompt pem_key importKey 3 = decryptLoop importKey 3 0 := by
    unfold key_decrypt_prompt
    rw [if_neg (by simp [hpem])]
  refine ⟨fun k h => decryptLoop_rsa_good importKey 3 0 k (hloop ▸ h), ?_, ?_⟩
  · intro j k hj hprev hjk hbad
    rw [hloop]
    interval_cases j
    · rw [decryptLoop, hjk]
      simp only []
      rw [if_neg hbad]
    · rw [decryptLoop, hprev 0 (by omega), decryptLoop, hjk]
      simp only []
      rw [if_neg hbad]
    · rw [decryptLoop, hprev 0 (by omega), decryptLoop, hprev 1 (by omega),
        decryptLoop, hjk]
      simp only []
      rw [if_neg hbad]
  · intro hall
    rw [hloop, decryptLoop, hall 0 (by omega), decryptLoop, hall 1 (by omega),
      decryptLoop, hall 2 (by omega)]
    rfl

theorem key_decrypt_prompt_spec_witness :
    hsv3Tag.isPrefixOf ([] : List Nat) = false
    ∧ ((∀ i, i < 3 → (fun _ => (none : Option RSAKey)) i = none) →
        key_decrypt_prompt [] (fun _ => none) 3 = .decryptionError)
    ∧ key_decrypt_prompt [] (fun _ => none) 3 = .decryptionError := by
  have h := key_decrypt_prompt_spec [] (fun _ => none) (by decide)
  exact ⟨by decide, h.2.2, h.2.2 (fun i _ => rfl)⟩

theorem b32char_facts : ∀ v, v < 32 → b32rev (b32char v) = some v
    ∧ toUpperByte (toLowerByte (b32char v)) = b32char v ∧ b32char v ≠ 61 := by
  decide

theorem decChars_encBlock (b0 b1 b2 b3 b4 : Nat) (h0 : b0 < 256) (h1 : b1 < 256)
    (h2 : b2 < 256) (h3 : b3 < 256) (h4 : b4 < 256) :
    decCharsAux 0 (encBlock b0 b1 b2 b3 b4)
      = some (b0 * 4294967296 + b1 * 16777216 + b2 * 65536 + b3 * 256 + b4) := by
  have hrev : ∀ x : Nat, b32rev (b32char (x % 32)) = some (x % 32) :=
    fun x => (b32char_facts (x % 32) (Nat.mod_lt x (by norm_num))).1
  simp only [encBlock, decCharsAux, hrev, Option.some_bind, Option.some.injEq]
  omega

theorem beBytes5_eq (b0 b1 b2 b3 b4 : Nat) (h0 : b0 < 256) (h1 : b1 < 256)
    (h2 : b2 < 256) (h3 : b3 < 256) (h4 : b4 < 256) :
    beBytes 5 (b0 * 4294967296 + b1 * 16777216 + b2 * 65536 + b3 * 256 + b4)
      = [b0, b1, b2, b3, b4] := by
  show beBytes 4 _ ++ _ = _
  show (beBytes 3 _ ++ _) ++ _ = _
  show ((beBytes 2 _ ++ _) ++ _) ++ _ = _
  show (((beBytes 1 _ ++ _) ++ _) ++ _) ++ _ = _
  show ((((beBytes 0 _ ++ _) ++ _) ++ _) ++ _) ++ _ = _
  simp only [beBytes, List.nil_append, List.cons_append, List.append_assoc,
    List.cons.injEq, List.nil_append]
  refine ⟨?_, ?_, ?_, ?_, ?_, trivial⟩ <;> omega

theorem decChars_digits (n : Nat) :
    decCharsAux 0 [b32char (n / 34359738368 % 32), b32char (n / 1073741824 % 32),
      b32char (n / 33554432 % 32), b32char (n / 1048576 % 32), b32char (n / 32768 % 32),
      b32char (n / 1024 % 32), b32char (n / 32 % 32), b32char (n % 32)]
      = some (n % 1099511627776) := by
  have hrev : ∀ x : Nat, b32rev (b32char (x % 32)) = some (x % 32) :=
    fun x => (b32char_facts (x % 32) (Nat.mod_lt x (by norm_num))).1
  simp only [decCharsAux, hrev, Option.some_bind, Option.some.injEq]
  omega

theorem encBlock_length (b0 b1 b2 b3 b4 : Nat) : (encBlock b0 b1 b2 b3 b4).length = 8 := rfl

theorem encBlock_chars (b0 b1 b2 b3 b4 : Nat) :
    ∀ c ∈ encBlock b0 b1 b2 b3 b4, ∃ v, v < 32 ∧ c = b32char v := by
  intro c hc
  simp only [encBlock, List.mem_cons, List.not_mem_nil, or_false] at hc
  rcases hc with h | h | h | h | h | h | h | h <;>
    exact ⟨_, Nat.mod_lt _ (by norm_num), h⟩

theorem decodeGroups_encBlock (b0 b1 b2 b3 b4 : Nat) (rest : List Nat)
    (h0 : b0 < 256) (h1 : b1 < 256) (h2 : b2 < 256) (h3 : b3 < 256) (h4 : b4 < 256) :
    decodeGroups 0 (encBlock b0 b1 b2 b3 b4 ++ rest)
      = (decodeGroups 0 rest).map fun tail => b0 :: b1 :: b2 :: b3 :: b4 :: tail := by
  simp only [encBlock, List.cons_append, List.nil_append]
  rw [decodeGroups, decChars_digits]
  have hmod : (b0 * 4294967296 + b1 * 16777216 + b2 * 65536 + b3 * 256 + b4)
      % 1099511627776 = b0 * 4294967296 + b1 * 16777216 + b2 * 65536 + b3 * 256 + b4 := by
    omega
  rw [hmod]
  cases hrest : decodeGroups 0 rest with
  | none => rfl
  | some tail =>
    simp only [Option.map_some', beBytes5_eq b0 b1 b2 b3 b4 h0 h1 h2 h3 h4,
      List.cons_append, List.nil_append]

theorem b32raw_spec (m : Nat) : ∀ bs : List Nat, bs.length = 5 * m →
    (∀ b ∈ bs, b < 256) →
    (b32encodeRaw bs).length = 8 * m
    ∧ (∀ c ∈ b32encodeRaw bs, ∃ v, v < 32 ∧ c = b32char v)
    ∧ decodeGroups 0 (b32encodeRaw bs) = some bs := by
  induction m with
  | zero =>
    intro bs hlen hlt
    rw [List.length_eq_zero.1 hlen]
    refine ⟨rfl, by simp [b32encodeRaw], ?_⟩
    rw [show b32encodeRaw [] = [] from rfl, decodeGroups]
    rfl
  | succ m ih =>
    intro bs hlen hlt
    obtain ⟨b0, t0, rfl⟩ := @List.exists_of_length_succ _ (5 * m + 4) bs (by omega)
    obtain ⟨b1, t1, rfl⟩ := @List.exists_of_length_succ _ (5 * m + 3) t0 (by simp at hlen; omega)
    obtain ⟨b2, t2, rfl⟩ := @List.exists_of_length_succ _ (5 * m + 2) t1 (by simp at hlen; omega)
    obtain ⟨b3, t3, rfl⟩ := @List.exists_of_length_succ _ (5 * m + 1) t2 (by simp at hlen; omega)
    obtain ⟨b4, rest, rfl⟩ := @List.exists_of_length_succ _ (5 * m) t3 (by simp at hlen; omega)
    have hrest : rest.length = 5 * m := by simp at hlen; omega
    have hlt5 : b0 < 256 ∧ b1 < 256 ∧ b2 < 256 ∧ b3 < 256 ∧ b4 < 256 :=
      ⟨hlt b0 (by simp), hlt b1 (by simp), hlt b2 (by simp), hlt b3 (by simp),
        hlt b4 (by simp)⟩
    have hltrest : ∀ b ∈ rest, b < 256 := fun b hb => hlt b (by simp [hb])
    obtain ⟨ihlen, ihchars, ihdec⟩ := ih rest hrest hltrest
    have henc : b32encodeRaw (b0 :: b1 :: b2 :: b3 :: b4 :: rest)
        = encBlock b0 b1 b2 b3 b4 ++ b32encodeRaw rest := rfl
    refine ⟨?_, ?_, ?_⟩
    · rw [henc]
      simp [encBlock_length, ihlen]
      omega
    · rw [henc]
      intro c hc
      rcases List.mem_append.1 hc with h | h
      · exact encBlock_chars b0 b1 b2 b3 b4 c h
      · exact ihchars c h
    · rw [henc, decodeGroups_encBlock b0 b1 b2 b3 b4 _ hlt5.1 hlt5.2.1 hlt5.2.2.1
        hlt5.2.2.2.1 hlt5.2.2.2.2, ihdec]
      rfl

theorem rstripPad_of_no_pad (l : List Nat) (h : ∀ c ∈ l, c ≠ 61) : rstripPad l = l := by
  unfold rstripPad
  rw [List.dropWhile_eq_self_iff.2 ?_, List.reverse_reverse]
  intro hne
  have hmem : l.reverse.get ⟨0, hne⟩ ∈ l := by
    rw [← List.mem_reverse]
    exact List.get_mem l.reverse 0 hne
  simpa using h _ hmem

/-- Round trip: base32-decoding (with case folding) the lower-cased base32
encoding of any byte string whose length is a multiple of five returns
exactly the original bytes. -/
theorem b32decode_lower_b32encode (m : Nat) (bs : List Nat) (hlen : bs.length = 5 * m)
    (hlt : ∀ b ∈ bs, b < 256) :
    b32decode ((b32encode bs).map toLowerByte) = some bs := by
  obtain ⟨rawlen, rawchars, rawdec⟩ := b32raw_spec m bs hlen hlt
  have hleft : bs.length % 5 = 0 := by omega
  have henc : b32encode bs = b32encodeRaw bs := by
    unfold b32encode
    rw [hleft]
    simp [padEqCount]
  rw [henc]
  have hupmap : (b32encodeRaw bs).map (fun c => toUpperByte (toLowerByte c))
      = b32encodeRaw bs := by
    have hcc : ∀ c ∈ b32encodeRaw bs, toUpperByte (toLowerByte c) = id c := by
      intro c hc
      obtain ⟨v, hv, rfl⟩ := rawchars c hc
      exact (b32char_facts v hv).2.1
    rw [List.map_congr_left hcc, List.map_id]
  have hunpadded : ∀ c ∈ (b32encodeRaw bs).map toLowerByte, toUpperByte c ≠ 61 := by
    intro c hc
    obtain ⟨c0, hc0, rfl⟩ := List.mem_map.1 hc
    obtain ⟨v, hv, rfl⟩ := rawchars c0 hc0
    rw [(b32char_facts v hv).2.1]
    exact (b32char_facts v hv).2.2
  unfold b32decode
  rw [if_neg ?lencheck]
  case lencheck =>
    simp only [List.length_map, rawlen]
    omega
  simp only [List.map_map]
  rw [show ((b32encodeRaw bs).map (toUpperByte ∘ toLowerByte))
      = (b32encodeRaw bs).map (fun c => toUpperByte (toLowerByte c)) from rfl]
  rw [hupmap]
  rw [rstripPad_of_no_pad (b32encodeRaw bs) ?nopad]
  case nopad =>
    intro c hc
    obtain ⟨v, hv, rfl⟩ := rawchars c hc
    exact (b32char_facts v hv).2.2
  rw [if_pos (by omega)]
  exact rawdec

theorem b32encode_of_mod5 (bs : List Nat) (h : bs.length % 5 = 0) :
    b32encode bs = b32encodeRaw bs := by
  unfold b32encode
  rw [h]
  simp [padEqCount]

theorem b32char_lower_ne_pad : ∀ v, v < 32 → toLowerByte (b32char v) ≠ 61 := by
  decide

/-- C6: base32-decoding (case-insensitively) the lower-case unpadded base32
string of any 10-byte permanent id yields the permanent id back; the
address is 16 characters with no padding character, and the RSA branch of
`calc_onion_address` produces exactly that encoding of the derived
permanent id. -/
theorem v2_address_roundtrip (p : List Nat) (hlen : p.length = 10)
    (hlt : ∀ b ∈ p, b < 256) :
    b32decode ((b32encode p).map toLowerByte) = some p
    ∧ ((b32encode p).map toLowerByte).length = 16
    ∧ (∀ c ∈ (b32encode p).map toLowerByte, c ≠ 61)
    ∧ ∀ n e : Nat, calc_onion_address (.rsa n e)
        = (b32encode (calc_permanent_id n e)).map toLowerByte := by
  obtain ⟨rawlen, rawchars, -⟩ := b32raw_spec 2 p (by omega) hlt
  refine ⟨b32decode_lower_b32encode 2 p (by omega) hlt, ?_, ?_, fun n e => rfl⟩
  · rw [b32encode_of_mod5 p (by omega)]
    simp [rawlen]
  · rw [b32encode_of_mod5 p (by omega)]
    intro c hc
    obtain ⟨c0, hc0, rfl⟩ := List.mem_map.1 hc
    obtain ⟨v, hv, rfl⟩ := rawchars c0 hc0
    exact b32char_lower_ne_pad v hv

theorem v2_address_roundtrip_witness :
    b32decode ((b32encode (List.replicate 10 0)).map toLowerByte)
      = some (List.replicate 10 0)
    ∧ ((b32encode (List.replicate 10 0)).map toLowerByte).length = 16 :=
  ⟨(v2_address_roundtrip (List.replicate 10 0) (by decide) (by decide)).1,
    (v2_address_roundtrip (List.replicate 10 0) (by decide) (by decide)).2.1⟩

theorem sha3_256_length (msg : List Nat) : (sha3_256 msg).length = 32 := by
  simp [sha3_256]

theorem sha3_256_lt (msg : List Nat) : ∀ b ∈ sha3_256 msg, b < 256 := by
  intro b hb
  simp only [sha3_256, List.mem_map] at hb
  obtain ⟨j, hj, rfl⟩ := hb
  exact Nat.mod_lt _ (by norm_num)

/-- C7: the v3 onion address of a 32-byte Ed25519 public key is the
lowercase base32 encoding of pubkey, checksum and version byte 3 — a
56-character string — where the checksum is the first two bytes of SHA3-256
over the ASCII bytes of `.onion checksum`, the public key and the version
byte; decoding the address returns that payload, and re-deriving the
checksum from the decoded pubkey and version byte equals the embedded
checksum bytes. -/
theorem v3_address_spec (pub_key : List Nat) (hlen : pub_key.length = 32)
    (hlt : ∀ b ∈ pub_key, b < 256) :
    calc_onion_address (.ed25519 pub_key)
      = base32_encode_str (pub_key
          ++ (sha3_256 (onionChecksumBytes ++ pub_key ++ [3])).take 2 ++ [3])
    ∧ (calc_onion_address (.ed25519 pub_key)).length = 56
    ∧ b32decode (calc_onion_address (.ed25519 pub_key))
        = some (pub_key
            ++ (sha3_256 (onionChecksumBytes ++ pub_key ++ [3])).take 2 ++ [3])
    ∧ ∀ decoded, b32decode (calc_onion_address (.ed25519 pub_key)) = some decoded →
        (sha3_256 (onionChecksumBytes ++ decoded.take 32 ++ [3])).take 2
          = (decoded.drop 32).take 2 := by
  have hcslen : ((sha3_256 (onionChecksumBytes ++ pub_key ++ [3])).take 2).length = 2 := by
    simp [sha3_256_length]
  have hplen : (pub_key
      ++ (sha3_256 (onionChecksumBytes ++ pub_key ++ [3])).take 2 ++ [3]).length = 35 := by
    simp only [List.length_append, hlen, hcslen, List.length_singleton]
  have hplt : ∀ b ∈ pub_key
      ++ (sha3_256 (onionChecksumBytes ++ pub_key ++ [3])).take 2 ++ [3], b < 256 := by
    intro b hb
    simp only [List.mem_append, List.mem_singleton] at hb
    rcases hb with (h | h) | h
    · exact hlt b h
    · exact sha3_256_lt _ b (List.take_subset _ _ h)
    · omega
  have hrt := b32decode_lower_b32encode 7 _ (by omega) hplt
  have haddr : calc_onion_address (.ed25519 pub_key)
      = (b32encode (pub_key
          ++ (sha3_256 (onionChecksumBytes ++ pub_key ++ [3])).take 2 ++ [3])).map
        toLowerByte := rfl
  have htake : (pub_key
      ++ (sha3_256 (onionChecksumBytes ++ pub_key ++ [3])).take 2 ++ [3]).take 32
      = pub_key := by
    rw [List.append_assoc, show (32 : Nat) = pub_key.length from hlen.symm, List.take_left]
  have hdrop : (pub_key
      ++ (sha3_256 (onionChecksumBytes ++ pub_key ++ [3])).take 2 ++ [3]).drop 32
      = (sha3_256 (onionChecksumBytes ++ pub_key ++ [3])).take 2 ++ [3] := by
    rw [List.append_assoc, show (32 : Nat) = pub_key.length from hlen.symm, List.drop_left]
  have htake2 : ((sha3_256 (onionChecksumBytes ++ pub_key ++ [3])).take 2 ++ [3]).take 2
      = (sha3_256 (onionChecksumBytes ++ pub_key ++ [3])).take 2 := by
    rw [List.take_append_eq_append_take, hcslen]
    simp [List.take_of_length_le, hcslen]
  refine ⟨rfl, ?_, ?_, ?_⟩
  · rw [haddr, b32encode_of_mod5 _ (by omega), List.length_map,
      (b32raw_spec 7 _ (by omega) hplt).1]
  · rw [haddr]
    exact hrt
  · intro decoded hdec
    rw [haddr, hrt, Option.some.injEq] at hdec
    subst hdec
    rw [htake, hdrop, htake2]

theorem v3_address_spec_witness :
    calc_onion_address (.ed25519 (List.replicate 32 0))
      = base32_encode_str (List.replicate 32 0
          ++ (sha3_256 (onionChecksumBytes ++ List.replicate 32 0 ++ [3])).take 2 ++ [3])
    ∧ (calc_onion_address (.ed25519 (List.replicate 32 0))).length = 56 := by
  have h := v3_address_spec (List.replicate 32 0) (by decide) (by decide)
  exact ⟨h.1, h.2.1⟩

theorem decodeGroups_partial_lt (padchars : Nat) (cs l : List Nat)
    (h : (if cs.length + padchars = 8 then
        match decCharsAux 0 cs with
        | some acc =>
          some ((beBytes 5 (acc * 2 ^ (5 * padchars))).take (leftoverBytes padchars))
        | none => none
      else none) = some l) : ∀ x ∈ l, x < 256 := by
  split at h
  · cases hacc : decCharsAux 0 cs with
    | none =>
      rw [hacc] at h
      exact absurd h (by simp)
    | some acc =>
      rw [hacc] at h
      simp only [Option.some.injEq] at h
      subst h
      intro x hx
      exact beBytes_lt _ _ _ (List.take_subset _ _ hx)
  · exact absurd h (by simp)

theorem decodeGroups_lt (padchars : Nat) : ∀ (n : Nat) (cs : List Nat), cs.length ≤ n →
    ∀ l, decodeGroups padchars cs = some l → ∀ x ∈ l, x < 256 := by
  intro n
  induction n with
  | zero =>
    intro cs hle l hdec
    have hnil : cs = [] := List.eq_nil_of_length_eq_zero (by omega)
    subst hnil
    rw [decodeGroups] at hdec
    split at hdec
    · simp only [Option.some.injEq] at hdec
      subst hdec
      simp
    · exact absurd hdec (by simp)
  | succ n ih =>
    intro cs hle l hdec
    rcases cs with _ | ⟨c0, _ | ⟨c1, _ | ⟨c2, _ | ⟨c3, _ | ⟨c4, _ | ⟨c5, _ | ⟨c6,
      _ | ⟨c7, rest⟩⟩⟩⟩⟩⟩⟩⟩
    · rw [decodeGroups] at hdec
      split at hdec
      · simp only [Option.some.injEq] at hdec
        subst hdec
        simp
      · exact absurd hdec (by simp)
    · exact decodeGroups_partial_lt padchars [c0] l hdec
    · exact decodeGroups_partial_lt padchars [c0, c1] l hdec
    · exact decodeGroups_partial_lt padchars [c0, c1, c2] l hdec
    · exact decodeGroups_partial_lt padchars [c0, c1, c2, c3] l hdec
    · exact decodeGroups_partial_lt padchars [c0, c1, c2, c3, c4] l hdec
    · exact decodeGroups_partial_lt padchars [c0, c1, c2, c3, c4, c5] l hdec
    · exact decodeGroups_partial_lt padchars [c0, c1, c2, c3, c4, c5, c6] l hdec
    · rw [decodeGroups] at hdec
      cases hacc : decCharsAux 0 [c0, c1, c2, c3, c4, c5, c6, c7] with
      | none =>
        rw [hacc] at hdec
        exact absurd hdec (by simp)
      | some acc =>
        rw [hacc] at hdec
        cases htail : decodeGroups padchars rest with
        | none =>
          rw [htail] at hdec
          exact absurd hdec (by simp)
        | some tail =>
          rw [htail] at hdec
          simp only [Option.some.injEq] at hdec
          subst hdec
          intro x hx
          rcases List.mem_append.1 hx with h | h
          · exact beBytes_lt _ _ _ h
          · exact ih rest (by simp at hle; omega) tail htail x h

theorem b32decode_lt (s l : List Nat) (h : b32decode s = some l) : ∀ x ∈ l, x < 256 := by
  unfold b32decode at h
  split at h
  · exact absurd h (by simp)
  · simp only [] at h
    split at h
    · exact decodeGroups_lt 0 _ _ (Nat.le_refl _) l h
    · split at h
      · exact decodeGroups_lt _ _ _ (Nat.le_refl _) l h
      · exact absurd h (by simp)

theorem calc_descriptor_id_b32_eq_of_none (onion_address : List Nat) (t replica : Nat)
    (deviation : Int) (descriptor_cookie : Option (List Nat))
    (h : b32decode onion_address = none) :
    calc_descriptor_id_b32 onion_address t replica deviation descriptor_cookie = none := by
  unfold calc_descriptor_id_b32
  rw [h]

theorem calc_descriptor_id_b32_eq_of_nil (onion_address : List Nat) (t replica : Nat)
    (deviation : Int) (descriptor_cookie : Option (List Nat))
    (h : b32decode onion_address = some []) :
    calc_descriptor_id_b32 onion_address t replica deviation descriptor_cookie = none := by
  unfold calc_descriptor_id_b32
  rw [h]
  rfl

theorem calc_descriptor_id_b32_eq_of_cons (onion_address : List Nat) (t replica : Nat)
    (descriptor_cookie : Option (List Nat)) (b : Nat) (rest : List Nat)
    (h : b32decode onion_address = some (b :: rest)) :
    calc_descriptor_id_b32 onion_address t replica 0 descriptor_cookie
      = match calc_secret_id_part ((((2 * t + 675 * b) / 172800 : Nat) : Int) + 0)
          descriptor_cookie replica with
        | none => none
        | some secret_id_part =>
          some ((b32encode (calc_descriptor_id (b :: rest) secret_id_part)).map
            toLowerByte) := by
  unfold calc_descriptor_id_b32
  rw [h]
  rfl

/-- C1 (amended): with deviation 0, an in-range replica and a timestamp
small enough to keep the packed time period below 2^32, the composite
operation fails exactly when the address is not valid case-insensitive
base32 or decodes to zero bytes; it returns a descriptor ID for every
address that decodes to at least one byte — the 10-byte permanent-id length
is never checked. -/
theorem calc_descriptor_id_b32_success_iff (onion_address : List Nat) (t replica : Nat)
    (descriptor_cookie : Option (List Nat))
    (ht : 2 * t + 675 * 255 < 4294967296 * 172800) (hr : replica < 256) :
    (calc_descriptor_id_b32 onion_address t replica 0 descriptor_cookie).isSome = true
      ↔ ∃ b rest, b32decode onion_address = some (b :: rest) := by
  cases hdec : b32decode onion_address with
  | none =>
    rw [calc_descriptor_id_b32_eq_of_none onion_address t replica 0 descriptor_cookie hdec]
    simp [hdec]
  | some pid =>
    cases pid with
    | nil =>
      rw [calc_descriptor_id_b32_eq_of_nil onion_address t replica 0 descriptor_cookie hdec]
      simp [hdec]
    | cons b rest =>
      have hb : b < 256 := b32decode_lt _ _ hdec b (List.mem_cons_self b rest)
      have htp : (2 * t + 675 * b) / 172800 < 4294967296 :=
        (Nat.div_lt_iff_lt_mul (by norm_num)).2 (by omega)
      rw [calc_descriptor_id_b32_eq_of_cons onion_address t replica descriptor_cookie
        b rest hdec, Int.add_zero, calc_secret_id_part_some _ _ _ htp hr]
      simp only [Option.isSome_some, true_iff]
      exact ⟨b, rest, rfl⟩

theorem calc_descriptor_id_b32_success_iff_witness :
    2 * 432000 + 675 * 255 < 4294967296 * 172800 ∧ (0 : Nat) < 256
    ∧ ((calc_descriptor_id_b32
          [97, 97, 97, 97, 97, 97, 97, 97, 97, 97, 97, 97, 97, 97, 97, 97]
          432000 0 0 none).isSome = true
        ↔ ∃ b rest, b32decode
            [97, 97, 97, 97, 97, 97, 97, 97, 97, 97, 97, 97, 97, 97, 97, 97]
            = some (b :: rest)) :=
  ⟨by norm_num, by norm_num,
    calc_descriptor_id_b32_success_iff
      [97, 97, 97, 97, 97, 97, 97, 97, 97, 97, 97, 97, 97, 97, 97, 97]
      432000 0 none (by norm_num) (by norm_num)⟩

/-- C1 (counterexample): the 8-character address `AAAAAAAA` decodes to only
5 bytes — not a well-formed 10-byte permanent id — yet the composite
operation succeeds instead of failing. -/
theorem calc_descriptor_id_b32_no_length_check :
    b32decode [65, 65, 65, 65, 65, 65, 65, 65] = some [0, 0, 0, 0, 0]
    ∧ (calc_descriptor_id_b32 [65, 65, 65, 65, 65, 65, 65, 65] 0 0 0 none).isSome
        = true := by
  constructor
  · decide
  · decide
